import Mathlib

/-!
Verification development for the buffer pool with concurrent LRU-approximate
eviction (src/storage/buffer/buffer_pool.cpp). The C++ code is embedded
shallowly: the pool is a record, the eviction queue is a list of hints
(enqueue at the back, dequeue at the front), and the lock-free loops become
structural recursion. Every machine value of type idx_t (uint64_t) — the
memory counters, total_dead_nodes, evict_queue_insertions, and the
per-handle eviction_timestamp — is a Nat reduced mod 2^64, so all
increments and decrements wrap exactly as in the source. Execution is
single-threaded: atomics become plain reads and writes, and the escalated
dequeue under purge exclusion observes the same queue as the plain dequeue
that just failed.
-/

namespace DuckDB

set_option maxRecDepth 2048

/-- Width of the idx_t machine word: the literal value of 2 ^ 64. -/
def W : Nat := 18446744073709551616

/-- Wrapping addition on idx_t values. -/
def wadd (a b : Nat) : Nat := (a + b) % W

/-- Wrapping subtraction on idx_t values. -/
def wsub (a b : Nat) : Nat := (a + (W - b % W)) % W

/-- Wrapping multiplication on idx_t values. -/
def wmul (a b : Nat) : Nat := (a * b) % W

/-- Modelled from the spec: the constant INSERT_INTERVAL lives in the
buffer-pool header, which is not among the sources; spec section 4.6 gives
the default 1024. -/
def INSERT_INTERVAL : Nat := 1024

/-- Modelled from the spec: PURGE_SIZE_MULTIPLIER is in the missing header;
spec section 4.6 gives the default 2. -/
def PURGE_SIZE_MULTIPLIER : Nat := 2

/-- Modelled from the spec: EARLY_OUT_MULTIPLIER is in the missing header;
spec section 4.6 gives the default 4. -/
def EARLY_OUT_MULTIPLIER : Nat := 4

/-- Modelled from the spec: ALIVE_NODE_MULTIPLIER is in the missing header;
spec section 4.6 gives the default 4. -/
def ALIVE_NODE_MULTIPLIER : Nat := 4

/-- Modelled from the spec: MemoryTag is an external enumeration with
MEMORY_TAG_COUNT entries; tags are embedded as plain Nat indices. -/
def MEMORY_TAG_COUNT : Nat := 12

/-- Modelled from the spec: the EXTENSION memory tag used by SetLimit; its
numeric value is irrelevant to every claim. -/
def TAG_EXTENSION : Nat := 11

/-- Block handle metadata (external contract, spec section 3): reference
count, eviction timestamp, load state, allocation size and memory tag. -/
structure BlockHandle where
  readers : Nat
  eviction_timestamp : Nat
  loaded : Bool
  alloc_size : Nat
  tag : Nat
deriving DecidableEq

/-- Modelled from the spec: BlockHandle::CanUnload is not among the sources;
spec section 3 says a handle may be unloaded only when readers == 0 and its
state is Loaded. -/
def BlockHandle.CanUnload (h : BlockHandle) : Bool :=
  decide (h.readers = 0) && h.loaded

/-- Eviction hint: weak reference (the handle id) plus the timestamp captured
at enqueue time (BufferEvictionNode in the source). -/
structure BufferEvictionNode where
  hid : Nat
  timestamp : Nat
deriving DecidableEq

/-- BufferEvictionNode::CanUnload from buffer_pool.cpp: stale-timestamp hints
are dead, otherwise defer to the handle. -/
def BufferEvictionNode.CanUnload (node : BufferEvictionNode) (h : BlockHandle) : Bool :=
  if node.timestamp ≠ h.eviction_timestamp then false else h.CanUnload

/-- The buffer pool state. The heap maps handle ids to the still-alive block
handles; a weak-reference upgrade is a heap lookup. next_id tracks id
freshness (a weak_ptr can never observe a recycled control block). -/
structure Pool where
  heap : Nat → Option BlockHandle
  next_id : Nat
  queue : List BufferEvictionNode
  current_memory : Nat
  maximum_memory : Nat
  memory_usage_per_tag : Nat → Nat
  evict_queue_insertions : Nat
  total_dead_nodes : Nat
  purge_active : Bool

/-- BufferEvictionNode::TryGetBlockHandle from buffer_pool.cpp: upgrade the
weak reference, then reject the node if it cannot unload the handle. -/
def TryGetBlockHandle (heap : Nat → Option BlockHandle) (node : BufferEvictionNode) :
    Option BlockHandle :=
  match heap node.hid with
  | none => none
  | some h => if node.CanUnload h then some h else none

/-- BufferPool::BufferPool: all counters start at zero, the limit is the
argument, the queue is empty and no purge is active. -/
def mkPool (maximum_memory : Nat) : Pool :=
  { heap := fun _ => none
    next_id := 0
    queue := []
    current_memory := 0
    maximum_memory := maximum_memory
    memory_usage_per_tag := fun _ => 0
    evict_queue_insertions := 0
    total_dead_nodes := 0
    purge_active := false }

/-- BufferPool::GetUsedMemory. -/
def GetUsedMemory (p : Pool) : Nat := p.current_memory

/-- BufferPool::GetMaxMemory. -/
def GetMaxMemory (p : Pool) : Nat := p.maximum_memory

/-- BufferPool::GetQueryMaxMemory, which returns GetMaxMemory verbatim. -/
def GetQueryMaxMemory (p : Pool) : Nat := GetMaxMemory p

/-- BufferPool::IncreaseUsedMemory: bump the global and the per-tag counter. -/
def IncreaseUsedMemory (p : Pool) (tag size : Nat) : Pool :=
  { p with
    current_memory := wadd p.current_memory size
    memory_usage_per_tag := fun t =>
      if t = tag then wadd (p.memory_usage_per_tag t) size
      else p.memory_usage_per_tag t }

/-- Release of a scoped reservation (TempBufferPoolReservation.Resize(0) on
the eviction failure path): both counters drop by the reserved amount. -/
def releaseReservation (tag extra : Nat) (p : Pool) : Pool :=
  { p with
    current_memory := wsub p.current_memory extra
    memory_usage_per_tag := fun t =>
      if t = tag then wsub (p.memory_usage_per_tag t) extra
      else p.memory_usage_per_tag t }

/-- Modelled from the spec: BlockHandle::Unload and UnloadAndTakeBlock are
not among the sources; spec section 3 says unloading moves the handle to the
Unloaded state and decrements current_memory and the per-tag counter by
exactly alloc_size. -/
def unloadHandle (p : Pool) (id : Nat) (h : BlockHandle) : Pool :=
  { p with
    heap := fun i => if i = id then some { h with loaded := false } else p.heap i
    current_memory := wsub p.current_memory h.alloc_size
    memory_usage_per_tag := fun t =>
      if t = h.tag then wsub (p.memory_usage_per_tag t) h.alloc_size
      else p.memory_usage_per_tag t }

/-- BufferPool::AddToEvictionQueue: bump the timestamp of the handle (a
wrapping uint64 pre-increment), enqueue one hint carrying the new value,
count the newly dead predecessor when the new timestamp is not 1, and report
whether the insertion counter reached INSERT_INTERVAL. The
D_ASSERT(readers == 0) precondition appears as a hypothesis of the theorems.
The none branch is unreachable in the source, where the caller holds a
shared_ptr to the handle. -/
def AddToEvictionQueue (p : Pool) (id : Nat) : Pool × Bool :=
  match p.heap id with
  | none => (p, false)
  | some h =>
    let ts := wadd h.eviction_timestamp 1
    ({ p with
        heap := fun i => if i = id then some { h with eviction_timestamp := ts } else p.heap i
        queue := p.queue ++ [⟨id, ts⟩]
        total_dead_nodes :=
          if ts ≠ 1 then wadd p.total_dead_nodes 1 else p.total_dead_nodes
        evict_queue_insertions := wadd p.evict_queue_insertions 1 },
      decide (INSERT_INTERVAL ≤ wadd p.evict_queue_insertions 1))

/-- Result of BufferPool::EvictBlocks: the success flag, the pool after the
call, and the optionally recycled buffer (modelled by its allocation size). -/
structure EvictionResult where
  success : Bool
  pool : Pool
  buffer : Option Nat

/-- Loop body of BufferPool::EvictBlocks. The queue travels as the explicit
list argument and is written back into the pool at every exit. A failed
dequeue on the empty list also covers TryDequeueWithoutConcurrentPurge: in
the sequential model the escalated retry observes the same empty queue. -/
def evictGo (tag extra limit : Nat) (wantBuffer : Bool) :
    List BufferEvictionNode → Pool → EvictionResult
  | [], p =>
    if p.current_memory ≤ limit then
      { success := true, pool := { p with queue := [] }, buffer := none }
    else
      { success := false
        pool := releaseReservation tag extra { p with queue := [] }
        buffer := none }
  | nd :: rest, p =>
    if p.current_memory ≤ limit then
      { success := true, pool := { p with queue := nd :: rest }, buffer := none }
    else
      let p1 : Pool :=
        { p with evict_queue_insertions := wsub p.evict_queue_insertions 1 }
      match TryGetBlockHandle p1.heap nd with
      | none =>
        evictGo tag extra limit wantBuffer rest
          { p1 with total_dead_nodes := wsub p1.total_dead_nodes 1 }
      | some h =>
        if nd.CanUnload h then
          if wantBuffer && decide (h.alloc_size = extra) then
            { success := true
              pool := unloadHandle { p1 with queue := rest } nd.hid h
              buffer := some h.alloc_size }
          else
            evictGo tag extra limit wantBuffer rest (unloadHandle p1 nd.hid h)
        else
          evictGo tag extra limit wantBuffer rest
            { p1 with total_dead_nodes := wsub p1.total_dead_nodes 1 }

/-- BufferPool::EvictBlocks: take the reservation eagerly, then run the
eviction loop over the queue. -/
def EvictBlocks (tag extra limit : Nat) (wantBuffer : Bool) (p : Pool) : EvictionResult :=
  evictGo tag extra limit wantBuffer p.queue (IncreaseUsedMemory p tag extra)

/-- Compaction loop inside BufferPool::PurgeIteration: walk the dequeued
nodes in order and keep exactly those for which TryGetBlockHandle succeeds. -/
def compactAlive (heap : Nat → Option BlockHandle) :
    List BufferEvictionNode → List BufferEvictionNode
  | [] => []
  | nd :: rest =>
    match TryGetBlockHandle heap nd with
    | some _ => nd :: compactAlive heap rest
    | none => compactAlive heap rest

/-- BufferPool::PurgeIteration: bulk-dequeue up to purge_size hints, compact
the survivors back into the queue, and subtract the dropped count from
total_dead_nodes. The scratch vector purge_nodes only caches capacity and
has no observable effect, so it is not part of the state. -/
def PurgeIteration (purge_size : Nat) (p : Pool) : Pool :=
  let dequeued := p.queue.take purge_size
  let alive := compactAlive p.heap dequeued
  { p with
    queue := p.queue.drop purge_size ++ alive
    total_dead_nodes := wsub p.total_dead_nodes (dequeued.length - alive.length) }

/-- Sweep loop of BufferPool::PurgeQueue, structured on the hard bound
max_purges. Returns the state together with the number of PurgeIteration
calls executed. -/
def PurgeLoop (purge_size : Nat) : Nat → Pool → Pool × Nat
  | 0, p => (p, 0)
  | max_purges + 1, p =>
    let p1 := PurgeIteration purge_size p
    let approx_q_size := p1.queue.length
    if approx_q_size < wmul purge_size EARLY_OUT_MULTIPLIER then (p1, 1)
    else
      let approx_dead_nodes := min p1.total_dead_nodes approx_q_size
      let approx_alive_nodes := approx_q_size - approx_dead_nodes
      if approx_dead_nodes < wmul approx_alive_nodes (ALIVE_NODE_MULTIPLIER - 1) then (p1, 1)
      else
        let r := PurgeLoop purge_size max_purges p1
        (r.1, r.2 + 1)

/-- Marker for the undefined behaviour reached when the source divides
approx_q_size by a zero purge_size. -/
inductive PurgeError where
  | divByZero
deriving DecidableEq

/-- The purge size computed by BufferPool::PurgeQueue from the fetched
insertion count: atomic_fetch_sub returns the old counter value. -/
def purgeSizeOf (p : Pool) : Nat := wmul p.evict_queue_insertions PURGE_SIZE_MULTIPLIER

/-- State right after the atomic_fetch_sub of INSERT_INTERVAL at the top of
BufferPool::PurgeQueue. The flag purge_active is raised for the duration of
the call and lowered on every normal return, so over a whole sequential call
its net effect is to stay false. -/
def purgeFetched (p : Pool) : Pool :=
  { p with
    evict_queue_insertions := wsub p.evict_queue_insertions INSERT_INTERVAL
    purge_active := false }

/-- BufferPool::PurgeQueue together with the iteration count of its sweep
loop. The approximate queue size is read after the fetch, which does not
change the queue. Reaching the division approx_q_size / purge_size with
purge_size = 0 is undefined behaviour in the source and surfaces as the
divByZero error here. -/
def PurgeQueueAux (p : Pool) : Except PurgeError (Pool × Nat) :=
  if p.purge_active then .ok (p, 0)
  else if p.queue.length < wmul (purgeSizeOf p) EARLY_OUT_MULTIPLIER then
    .ok (purgeFetched p, 0)
  else if purgeSizeOf p = 0 then .error .divByZero
  else .ok (PurgeLoop (purgeSizeOf p) (p.queue.length / purgeSizeOf p) (purgeFetched p))

/-- BufferPool::PurgeQueue. -/
def PurgeQueue (p : Pool) : Except PurgeError Pool :=
  (PurgeQueueAux p).map Prod.fst

/-- Number of sweep-loop iterations a PurgeQueue call executes; an undefined
behaviour exit executes none. -/
def PurgeQueueIterations (p : Pool) : Nat :=
  match PurgeQueueAux p with
  | .ok r => r.2
  | .error _ => 0

/-- The OutOfMemoryException thrown by BufferPool::SetLimit, carrying the
requested limit and the caller postscript that the message is formatted
from. -/
structure OOMError where
  limit : Nat
  postscript : String
deriving DecidableEq

/-- State after the first eviction pass of SetLimit adopts the new limit as
the global maximum (step 3 of the source). -/
def setLimitP2 (p : Pool) (limit : Nat) : Pool :=
  { (EvictBlocks TAG_EXTENSION 0 limit false p).pool with maximum_memory := limit }

/-- BufferPool::SetLimit: evict to the new limit, adopt it, evict again, and
on a second failure restore the saved old limit (read between the passes)
before throwing. The error case carries the pool state left behind by the
throw. -/
def SetLimit (p : Pool) (limit : Nat) (postscript : String) :
    Except (OOMError × Pool) Pool :=
  if (EvictBlocks TAG_EXTENSION 0 limit false p).success = false then
    .error (⟨limit, postscript⟩, (EvictBlocks TAG_EXTENSION 0 limit false p).pool)
  else if (EvictBlocks TAG_EXTENSION 0 limit false (setLimitP2 p limit)).success = false then
    .error (⟨limit, postscript⟩,
      { (EvictBlocks TAG_EXTENSION 0 limit false (setLimitP2 p limit)).pool with
          maximum_memory := (EvictBlocks TAG_EXTENSION 0 limit false p).pool.maximum_memory })
  else .ok (EvictBlocks TAG_EXTENSION 0 limit false (setLimitP2 p limit)).pool

/-- Number of hints in a queue for handle id carrying exactly timestamp ts,
that is, the live hints of a handle whose current timestamp is ts. -/
def liveCount (q : List BufferEvictionNode) (id ts : Nat) : Nat :=
  q.countP fun nd => decide (nd.hid = id) && decide (nd.timestamp = ts)

/-- Invariant I4: every alive handle has at most one live hint in the queue. -/
def atMostOneLive (p : Pool) : Prop :=
  ∀ id h, p.heap id = some h → liveCount p.queue id h.eviction_timestamp ≤ 1

/-- Auxiliary invariant: every queued hint for an alive handle carries a
timestamp no larger than the current timestamp of the handle. -/
def tsBound (p : Pool) : Prop :=
  ∀ nd, nd ∈ p.queue → ∀ h, p.heap nd.hid = some h →
    nd.timestamp ≤ h.eviction_timestamp

/-- Auxiliary invariant: queued hints only mention already-issued ids. -/
def hintFresh (p : Pool) : Prop :=
  ∀ nd, nd ∈ p.queue → nd.hid < p.next_id

/-- Auxiliary invariant: alive handles only occupy already-issued ids. -/
def heapFresh (p : Pool) : Prop :=
  ∀ id h, p.heap id = some h → id < p.next_id

/-- The inductive pool invariant. -/
def Inv (p : Pool) : Prop := tsBound p ∧ atMostOneLive p ∧ hintFresh p ∧ heapFresh p

/-- Timestamp view of a possibly-absent handle. -/
def optTs (o : Option BlockHandle) : Option Nat := o.map BlockHandle.eviction_timestamp

/-- A state refines another when its queue is a sub-multiset of the other
queue (witnessed by membership and by every countP), the timestamps of the
heap agree pointwise, and the id supply agrees. Eviction and purge steps
only shrink the queue and never touch a timestamp, so their results refine
their inputs. -/
def Refines (q p : Pool) : Prop :=
  (∀ nd, nd ∈ q.queue → nd ∈ p.queue) ∧
  (∀ f : BufferEvictionNode → Bool, q.queue.countP f ≤ p.queue.countP f) ∧
  (∀ id, optTs (q.heap id) = optTs (p.heap id)) ∧
  q.next_id = p.next_id

/-- One step of the pool environment: the external block manager creates,
destroys and mutates handles (never touching a timestamp outside
AddToEvictionQueue), and the pool interface is invoked with arbitrary
arguments. -/
inductive Step : Pool → Pool → Prop where
  | create (p : Pool) (h : BlockHandle) :
      Step p { p with
                heap := fun i => if i = p.next_id then some h else p.heap i
                next_id := p.next_id + 1 }
  | destroy (p : Pool) (id : Nat) :
      Step p { p with heap := fun i => if i = id then none else p.heap i }
  | touch (p : Pool) (id : Nat) (h h' : BlockHandle) (hh : p.heap id = some h)
      (hts : h'.eviction_timestamp = h.eviction_timestamp) :
      Step p { p with heap := fun i => if i = id then some h' else p.heap i }
  | increase (p : Pool) (tag size : Nat) :
      Step p (IncreaseUsedMemory p tag size)
  | add (p : Pool) (id : Nat) :
      Step p (AddToEvictionQueue p id).1
  | evict (p : Pool) (tag extra limit : Nat) (wb : Bool) :
      Step p (EvictBlocks tag extra limit wb p).pool
  | purgeOk (p p' : Pool) (h : PurgeQueue p = .ok p') :
      Step p p'
  | setLimitOk (p : Pool) (x : Nat) (s : String) (p' : Pool)
      (h : SetLimit p x s = .ok p') :
      Step p p'
  | setLimitErr (p : Pool) (x : Nat) (s : String) (e : OOMError) (p' : Pool)
      (h : SetLimit p x s = .error (e, p')) :
      Step p p'

/-- Pool states reachable from a freshly constructed pool. -/
inductive Reachable : Pool → Prop where
  | init (m : Nat) : Reachable (mkPool m)
  | step (p p' : Pool) (hr : Reachable p) (hs : Step p p') : Reachable p'

/-- The step relation restricted to histories without timestamp wraparound:
identical to Step except that AddToEvictionQueue on an alive handle requires
the timestamp increment not to wrap, so the handle has been unpinned fewer
than 2^64 times. On such histories the hint-liveness invariant holds; a full
wrap refutes it, as the counterexample for the unrestricted relation shows. -/
inductive StepNW : Pool → Pool → Prop where
  | create (p : Pool) (h : BlockHandle) :
      StepNW p { p with
                  heap := fun i => if i = p.next_id then some h else p.heap i
                  next_id := p.next_id + 1 }
  | destroy (p : Pool) (id : Nat) :
      StepNW p { p with heap := fun i => if i = id then none else p.heap i }
  | touch (p : Pool) (id : Nat) (h h' : BlockHandle) (hh : p.heap id = some h)
      (hts : h'.eviction_timestamp = h.eviction_timestamp) :
      StepNW p { p with heap := fun i => if i = id then some h' else p.heap i }
  | increase (p : Pool) (tag size : Nat) :
      StepNW p (IncreaseUsedMemory p tag size)
  | add (p : Pool) (id : Nat) (h : BlockHandle) (hh : p.heap id = some h)
      (hw : h.eviction_timestamp + 1 < W) :
      StepNW p (AddToEvictionQueue p id).1
  | addGone (p : Pool) (id : Nat) (hh : p.heap id = none) :
      StepNW p (AddToEvictionQueue p id).1
  | evict (p : Pool) (tag extra limit : Nat) (wb : Bool) :
      StepNW p (EvictBlocks tag extra limit wb p).pool
  | purgeOk (p p' : Pool) (h : PurgeQueue p = .ok p') :
      StepNW p p'
  | setLimitOk (p : Pool) (x : Nat) (s : String) (p' : Pool)
      (h : SetLimit p x s = .ok p') :
      StepNW p p'
  | setLimitErr (p : Pool) (x : Nat) (s : String) (e : OOMError) (p' : Pool)
      (h : SetLimit p x s = .error (e, p')) :
      StepNW p p'

/-- Pool states reachable without any timestamp wraparound. -/
inductive ReachableNW : Pool → Prop where
  | init (m : Nat) : ReachableNW (mkPool m)
  | step (p p' : Pool) (hr : ReachableNW p) (hs : StepNW p p') : ReachableNW p'

/-- A loaded zero-size handle used by the timestamp-wraparound trace. -/
def c6w_h : BlockHandle :=
  { readers := 0, eviction_timestamp := 0, loaded := true, alloc_size := 0, tag := 0 }

/-- Pool holding the single handle c6w_h at id 0: the successor state of
registering c6w_h in a fresh pool. -/
def c6w_p0 : Pool :=
  { mkPool 0 with
    heap := fun i => if i = (mkPool 0).next_id then some c6w_h else (mkPool 0).heap i
    next_id := (mkPool 0).next_id + 1 }

/-- Iterated unpinning of the handle at id 0: n successive
AddToEvictionQueue calls. -/
def addSteps : Nat → Pool → Pool
  | 0, p => p
  | n + 1, p => (AddToEvictionQueue (addSteps n p) 0).1

/-- Success test on an Except value, avoiding any comparison of pool states. -/
def exceptOk {ε α : Type} : Except ε α → Bool
  | .ok _ => true
  | .error _ => false

/-- A handle that is alive and unloadable, but whose current timestamp 2 is
ahead of the queued hint below: the hint is dead yet still referenced. -/
def c1_h : BlockHandle :=
  { readers := 0, eviction_timestamp := 2, loaded := true, alloc_size := 10, tag := 0 }

/-- Pool holding one dead-but-still-referenced hint: the handle at id 0 is
alive with timestamp 2, the queued hint carries the stale timestamp 1. -/
def c1_p : Pool :=
  { heap := fun i => if i = 0 then some c1_h else none
    next_id := 1
    queue := [⟨0, 1⟩]
    current_memory := 10
    maximum_memory := 100
    memory_usage_per_tag := fun t => if t = 0 then 10 else 0
    evict_queue_insertions := 1
    total_dead_nodes := 1
    purge_active := false }

/-- A live, unloadable handle of allocation size 40. -/
def c3_h : BlockHandle :=
  { readers := 0, eviction_timestamp := 1, loaded := true, alloc_size := 40, tag := 0 }

/-- Pool with 80 bytes booked and one live hint for a 40-byte handle: the
out_buffer fast path of EvictBlocks returns success while current_memory is
still 80, above limit 0 plus the 40-byte reservation. -/
def c3_p : Pool :=
  { heap := fun i => if i = 1 then some c3_h else none
    next_id := 2
    queue := [⟨1, 1⟩]
    current_memory := 80
    maximum_memory := 1000
    memory_usage_per_tag := fun t => if t = 0 then 80 else 0
    evict_queue_insertions := 1
    total_dead_nodes := 0
    purge_active := false }

/-- Pool whose insertion counter sits exactly at INSERT_INTERVAL: the state a
purge trigger observes. The first PurgeQueue call leaves the counter at 0,
so a second consecutive call fetches 0 and reaches the division by zero. -/
def c7_p : Pool :=
  { mkPool 100 with evict_queue_insertions := INSERT_INTERVAL }

/-- A fresh loaded handle of size 10 used by the dead-node wraparound trace. -/
def c9_h : BlockHandle :=
  { readers := 0, eviction_timestamp := 0, loaded := true, alloc_size := 10, tag := 0 }

/-- Wraparound trace, step 1: a new pool that registered one handle. -/
def c9_p1 : Pool :=
  { mkPool 100 with heap := fun i => if i = 0 then some c9_h else none, next_id := 1 }

/-- Wraparound trace, step 2: 10 bytes of used memory are booked. -/
def c9_p2 : Pool := IncreaseUsedMemory c9_p1 0 10

/-- Wraparound trace, step 3: the handle is unpinned, enqueueing a hint with
timestamp 1; total_dead_nodes stays 0 because the timestamp is 1. -/
def c9_p3 : Pool := (AddToEvictionQueue c9_p2 0).1

/-- Wraparound trace, step 4: the handle is destroyed while its hint is still
queued. -/
def c9_p4 : Pool :=
  { c9_p3 with heap := fun i => if i = 0 then none else c9_p3.heap i }

/-- Pool with one alive handle used to witness the AddToEvictionQueue
contract on a concrete input. -/
def c4_p : Pool :=
  { mkPool 100 with heap := fun i => if i = 0 then some c9_h else none, next_id := 1 }

/-- Counting survivors of a filter never exceeds counting over the whole
list. -/
theorem countP_filter_le {α : Type} (f g : α → Bool) (l : List α) :
    (l.filter g).countP f ≤ l.countP f := by
  induction l with
  | nil => simp
  | cons a l ih =>
    rw [List.filter_cons]
    by_cases hg : g a
    · rw [if_pos hg, List.countP_cons, List.countP_cons]
      exact Nat.add_le_add_right ih _
    · rw [if_neg hg, List.countP_cons]
      exact Nat.le_trans ih (Nat.le_add_right _ _)

/-- The compaction loop of PurgeIteration keeps exactly the nodes for which
TryGetBlockHandle succeeds, in order. -/
theorem compactAlive_eq_filter (heap : Nat → Option BlockHandle)
    (l : List BufferEvictionNode) :
    compactAlive heap l = l.filter fun nd => (TryGetBlockHandle heap nd).isSome := by
  induction l with
  | nil => rfl
  | cons nd rest ih =>
    cases htg : TryGetBlockHandle heap nd <;>
      simp [compactAlive, htg, List.filter_cons, ih]

/-- C1, amended. A purge iteration keeps a dequeued hint if and only if
TryGetBlockHandle succeeds on it, that is, if and only if the weak reference
upgrades AND the hint timestamp equals the current eviction_timestamp of the
handle AND the handle can be unloaded; contrary to the claim, the timestamp
IS compared, so a dead-but-still-referenced hint is dropped. -/
theorem claim_C1_amended (n : Nat) (p : Pool) :
    (PurgeIteration n p).queue =
      p.queue.drop n ++ (p.queue.take n).filter fun nd =>
        match p.heap nd.hid with
        | none => false
        | some h => decide (nd.timestamp = h.eviction_timestamp) && h.CanUnload := by
  show List.drop n p.queue ++ compactAlive p.heap (List.take n p.queue) = _
  rw [compactAlive_eq_filter]
  refine congrArg (_ ++ List.filter · _) ?_
  funext nd
  unfold TryGetBlockHandle BufferEvictionNode.CanUnload
  cases hh : p.heap nd.hid with
  | none => rfl
  | some h =>
    by_cases hts : nd.timestamp = h.eviction_timestamp <;>
      cases hcu : h.CanUnload <;> simp [hts, hcu]

/-- C1, counterexample to the claim as stated: in c1_p the queued hint can be
upgraded (its handle is alive), yet the purge iteration drops it, because its
timestamp 1 differs from the handle timestamp 2. -/
theorem claim_C1_counterexample :
    (c1_p.heap (BufferEvictionNode.mk 0 1).hid).isSome = true ∧
    (PurgeIteration 1 c1_p).queue = [] := by
  constructor
  · rfl
  · decide

/-- C8. The claim is right about the intent and the code is wrong: a
PurgeQueue call that fetches an insertion count of 0 (here: a freshly
constructed pool) computes purge_size = 0, fails the unsigned early-out test
approx_q_size < 0, and reaches the division max_purges = approx_q_size / 0,
which is undefined behaviour in C++ and the divByZero error in this model. -/
theorem claim_C8_eval : PurgeQueue (mkPool 100) = .error .divByZero := rfl

/-- C7, counterexample: two consecutive PurgeQueue calls are not equivalent
to one call that sees the same queue. On c7_p a single call returns normally
(early-out), but the composition of two calls reaches the division by zero,
because the first call already drained evict_queue_insertions to 0. -/
theorem claim_C7_counterexample :
    exceptOk (PurgeQueue c7_p) = true ∧
    exceptOk ((PurgeQueue c7_p).bind PurgeQueue) = false := by
  decide

/-- C9, counterexample: a hint enqueued with timestamp 1 (so no dead-node
increment ever happened) whose handle is then destroyed and later observed
by EvictBlocks drives total_dead_nodes from 0 past zero, wrapping the
unsigned counter to 2^64 - 1. -/
theorem claim_C9_counterexample :
    c9_p4.total_dead_nodes = 0 ∧
    (EvictBlocks 0 0 0 false c9_p4).pool.total_dead_nodes = W - 1 := by
  decide

/-- C3, counterexample: an EvictBlocks call that returns success through the
out_buffer fast path can leave current_memory above memory_limit plus the
reservation. On c3_p (80 bytes booked, one live 40-byte handle queued), the
call with extra_memory = 40 and memory_limit = 0 succeeds handing out the
buffer while current_memory is still 80 > 0 + 40. -/
theorem claim_C3_counterexample :
    (EvictBlocks 0 40 0 true c3_p).success = true ∧
    (EvictBlocks 0 40 0 true c3_p).buffer = some 40 ∧
    (EvictBlocks 0 40 0 true c3_p).pool.current_memory = 80 ∧
    ¬(EvictBlocks 0 40 0 true c3_p).pool.current_memory ≤ 0 + 40 := by
  decide

/-- C10. A freshly constructed pool has zero used memory, the given limit as
both maximum and query maximum, an all-zero per-tag array, zero insertion
and dead-node counters, no active purge, and an empty eviction queue. -/
theorem claim_C10 (m : Nat) :
    GetUsedMemory (mkPool m) = 0 ∧
    GetMaxMemory (mkPool m) = m ∧
    GetQueryMaxMemory (mkPool m) = m ∧
    (∀ t, (mkPool m).memory_usage_per_tag t = 0) ∧
    (mkPool m).evict_queue_insertions = 0 ∧
    (mkPool m).total_dead_nodes = 0 ∧
    (mkPool m).purge_active = false ∧
    (mkPool m).queue = [] :=
  ⟨rfl, rfl, rfl, fun _ => rfl, rfl, rfl, rfl, rfl⟩

/-- Refinement is reflexive. -/
theorem refines_refl (p : Pool) : Refines p p :=
  ⟨fun _ h => h, fun _ => Nat.le_refl _, fun _ => rfl, rfl⟩

/-- Refinement is transitive. -/
theorem refines_trans {r q p : Pool} (h1 : Refines r q) (h2 : Refines q p) :
    Refines r p := by
  obtain ⟨m1, c1, t1, n1⟩ := h1
  obtain ⟨m2, c2, t2, n2⟩ := h2
  exact ⟨fun nd hnd => m2 nd (m1 nd hnd),
         fun f => Nat.le_trans (c1 f) (c2 f),
         fun id => (t1 id).trans (t2 id),
         n1.trans n2⟩

/-- States that agree on queue, heap and id supply refine each other. -/
theorem refines_same {q p : Pool} (hq : q.queue = p.queue) (hh : q.heap = p.heap)
    (hn : q.next_id = p.next_id) : Refines q p := by
  refine ⟨?_, ?_, ?_, hn⟩
  · intro nd hnd; rw [← hq]; exact hnd
  · intro f; rw [hq]
  · intro id; rw [hh]

/-- Dropping the head of the queue while keeping timestamps is a refinement. -/
theorem refines_cons {q p : Pool} (nd : BufferEvictionNode)
    (rest : List BufferEvictionNode) (hq : q.queue = rest)
    (hp : p.queue = nd :: rest)
    (hh : ∀ id, optTs (q.heap id) = optTs (p.heap id))
    (hn : q.next_id = p.next_id) : Refines q p := by
  refine ⟨?_, ?_, hh, hn⟩
  · intro x hx
    rw [hp]
    rw [hq] at hx
    exact List.mem_cons_of_mem _ hx
  · intro f
    rw [hp, hq, List.countP_cons]
    exact Nat.le_add_right _ _

/-- A successful TryGetBlockHandle really pulled the handle out of the heap. -/
theorem TryGetBlockHandle_some {heap : Nat → Option BlockHandle}
    {nd : BufferEvictionNode} {h : BlockHandle}
    (htg : TryGetBlockHandle heap nd = some h) : heap nd.hid = some h := by
  cases hh : heap nd.hid with
  | none =>
    simp only [TryGetBlockHandle, hh] at htg
    exact htg
  | some h0 =>
    simp only [TryGetBlockHandle, hh] at htg
    by_cases hcu : nd.CanUnload h0 = true
    · rw [if_pos hcu] at htg
      exact htg
    · rw [if_neg hcu] at htg
      exact Option.noConfusion htg

/-- Unloading a handle that the heap holds preserves every timestamp. -/
theorem optTs_unload (p : Pool) (id : Nat) (h : BlockHandle)
    (hh : p.heap id = some h) (i : Nat) :
    optTs ((unloadHandle p id h).heap i) = optTs (p.heap i) := by
  show optTs (if i = id then some { h with loaded := false } else p.heap i) = _
  by_cases hi : i = id
  · rw [if_pos hi, hi, hh]
    rfl
  · rw [if_neg hi]

/-- The eviction loop never touches the memory limit. -/
theorem evictGo_max (tag extra limit : Nat) (wb : Bool)
    (q : List BufferEvictionNode) :
    ∀ p : Pool, (evictGo tag extra limit wb q p).pool.maximum_memory =
      p.maximum_memory := by
  induction q with
  | nil =>
    intro p
    by_cases hle : p.current_memory ≤ limit
    · simp [evictGo, hle]
    · simp [evictGo, hle]
      rfl
  | cons nd rest ih =>
    intro p
    by_cases hle : p.current_memory ≤ limit
    · simp [evictGo, hle]
    · simp only [evictGo, hle, ite_false]
      cases htg : TryGetBlockHandle p.heap nd with
      | none => exact ih _
      | some h =>
        by_cases hcu : nd.CanUnload h = true
        · by_cases hwb : (wb && decide (h.alloc_size = extra)) = true
          · simp [hcu, hwb]
            rfl
          · simp [hcu, hwb]
            exact ih _
        · simp [hcu]
          exact ih _

/-- EvictBlocks never touches the memory limit. -/
theorem EvictBlocks_max (tag extra limit : Nat) (wb : Bool) (p : Pool) :
    (EvictBlocks tag extra limit wb p).pool.maximum_memory = p.maximum_memory :=
  evictGo_max tag extra limit wb p.queue _

/-- Without the out_buffer fast path, a successful eviction loop ends at or
below the limit. -/
theorem evictGo_success_le (tag extra limit : Nat) (q : List BufferEvictionNode) :
    ∀ p : Pool, (evictGo tag extra limit false q p).success = true →
      (evictGo tag extra limit false q p).pool.current_memory ≤ limit := by
  induction q with
  | nil =>
    intro p hs
    by_cases hle : p.current_memory ≤ limit
    · simp [evictGo, hle]
    · simp [evictGo, hle] at hs
  | cons nd rest ih =>
    intro p hs
    by_cases hle : p.current_memory ≤ limit
    · simp [evictGo, hle]
    · simp only [evictGo, hle, ite_false] at hs ⊢
      cases htg : TryGetBlockHandle p.heap nd with
      | none =>
        rw [htg] at hs
        exact ih _ hs
      | some h =>
        rw [htg] at hs
        by_cases hcu : nd.CanUnload h = true
        · simp [hcu] at hs ⊢
          exact ih _ hs
        · simp [hcu] at hs ⊢
          exact ih _ hs

/-- The eviction loop only removes queue entries and never changes a
timestamp or the id supply. -/
theorem evictGo_refines (tag extra limit : Nat) (wb : Bool)
    (q : List BufferEvictionNode) :
    ∀ p : Pool, Refines (evictGo tag extra limit wb q p).pool { p with queue := q } := by
  induction q with
  | nil =>
    intro p
    by_cases hle : p.current_memory ≤ limit
    · simp [evictGo, hle]
      exact refines_refl _
    · simp [evictGo, hle]
      exact refines_same rfl rfl rfl
  | cons nd rest ih =>
    intro p
    by_cases hle : p.current_memory ≤ limit
    · simp [evictGo, hle]
      exact refines_refl _
    · simp only [evictGo, hle, ite_false]
      cases htg : TryGetBlockHandle p.heap nd with
      | none =>
        exact refines_trans (ih _) (refines_cons nd rest rfl rfl (fun _ => rfl) rfl)
      | some h =>
        have hhid : p.heap nd.hid = some h := TryGetBlockHandle_some htg
        by_cases hcu : nd.CanUnload h = true
        · by_cases hwb : (wb && decide (h.alloc_size = extra)) = true
          · simp only [hcu, ite_true, hwb]
            exact refines_cons nd rest rfl rfl (optTs_unload _ nd.hid h hhid) rfl
          · simp only [hcu, ite_true, hwb, ite_false]
            exact refines_trans (ih _)
              (refines_cons nd rest rfl rfl (optTs_unload _ nd.hid h hhid) rfl)
        · simp only [hcu, ite_false]
          exact refines_trans (ih _) (refines_cons nd rest rfl rfl (fun _ => rfl) rfl)

/-- EvictBlocks only removes queue entries and never changes a timestamp or
the id supply. -/
theorem EvictBlocks_refines (tag extra limit : Nat) (wb : Bool) (p : Pool) :
    Refines (EvictBlocks tag extra limit wb p).pool p := by
  refine refines_trans (evictGo_refines tag extra limit wb p.queue _) ?_
  exact refines_same rfl rfl rfl

/-- Without the out_buffer fast path, a successful EvictBlocks call ends at
or below the limit. -/
theorem EvictBlocks_success_le (tag extra limit : Nat) (p : Pool)
    (hs : (EvictBlocks tag extra limit false p).success = true) :
    (EvictBlocks tag extra limit false p).pool.current_memory ≤ limit :=
  evictGo_success_le tag extra limit p.queue _ hs

/-- A purge iteration only drops queue entries and never changes a timestamp
or the id supply. -/
theorem purgeIteration_refines (n : Nat) (p : Pool) :
    Refines (PurgeIteration n p) p := by
  refine ⟨?_, ?_, fun _ => rfl, rfl⟩
  · intro nd hnd
    have hnd2 : nd ∈ p.queue.drop n ++ compactAlive p.heap (p.queue.take n) := hnd
    rw [compactAlive_eq_filter] at hnd2
    rcases List.mem_append.mp hnd2 with hmem | hmem
    · exact List.drop_subset n p.queue hmem
    · exact List.take_subset n p.queue (List.mem_of_mem_filter hmem)
  · intro f
    show (p.queue.drop n ++ compactAlive p.heap (p.queue.take n)).countP f ≤ _
    rw [compactAlive_eq_filter, List.countP_append]
    have h1 : ((p.queue.take n).filter fun nd =>
        (TryGetBlockHandle p.heap nd).isSome).countP f ≤ (p.queue.take n).countP f :=
      countP_filter_le _ _ _
    have h2 : (p.queue.take n).countP f + (p.queue.drop n).countP f =
        p.queue.countP f := by
      rw [← List.countP_append, List.take_append_drop]
    omega

/-- The purge sweep loop only drops queue entries. -/
theorem PurgeLoop_refines (ps n : Nat) :
    ∀ p : Pool, Refines (PurgeLoop ps n p).1 p := by
  induction n with
  | zero => intro p; exact refines_refl p
  | succ n ih =>
    intro p
    simp only [PurgeLoop]
    split
    · exact purgeIteration_refines ps p
    · split
      · exact purgeIteration_refines ps p
      · exact refines_trans (ih _) (purgeIteration_refines ps p)

/-- The purge sweep loop executes at most as many iterations as its fuel. -/
theorem PurgeLoop_count_le (ps n : Nat) :
    ∀ p : Pool, (PurgeLoop ps n p).2 ≤ n := by
  induction n with
  | zero => intro p; exact Nat.le_refl 0
  | succ n ih =>
    intro p
    simp only [PurgeLoop]
    split
    · exact Nat.succ_le_succ (Nat.zero_le n)
    · split
      · exact Nat.succ_le_succ (Nat.zero_le n)
      · exact Nat.succ_le_succ (ih _)

/-- A PurgeQueue call that returns normally executes at most
queue-size / purge-size sweep iterations. -/
theorem PurgeQueueAux_ok_count {p : Pool} {r : Pool × Nat}
    (hA : PurgeQueueAux p = .ok r) : r.2 ≤ p.queue.length / purgeSizeOf p := by
  unfold PurgeQueueAux at hA
  split at hA
  · cases hA
    exact Nat.zero_le _
  · split at hA
    · cases hA
      exact Nat.zero_le _
    · split at hA
      · exact Except.noConfusion hA
      · cases hA
        exact PurgeLoop_count_le _ _ _

/-- The fetch of the insertion counter only changes that counter: it is a
queue refinement. -/
theorem purgeFetched_refines (p : Pool) : Refines (purgeFetched p) p := by
  unfold purgeFetched
  apply refines_same <;> rfl

/-- A PurgeQueue call that returns normally only drops queue entries, never
changes a timestamp or the id supply. -/
theorem PurgeQueue_ok_refines {p p' : Pool} (h : PurgeQueue p = .ok p') :
    Refines p' p := by
  cases hA : PurgeQueueAux p with
  | error e =>
    unfold PurgeQueue at h
    rw [hA] at h
    exact Except.noConfusion h
  | ok r =>
    unfold PurgeQueue at h
    rw [hA] at h
    have hp' : r.1 = p' := Except.ok.inj h
    clear h
    unfold PurgeQueueAux at hA
    split at hA
    · cases hA
      rw [← hp']
      exact refines_refl p
    · split at hA
      · cases hA
        rw [← hp']
        exact purgeFetched_refines p
      · split at hA
        · exact Except.noConfusion hA
        · cases hA
          rw [← hp']
          exact refines_trans (PurgeLoop_refines _ _ _) (purgeFetched_refines p)

/-- C5. PurgeQueue terminates in a bounded number of sweep iterations: the
count of PurgeIteration calls executed never exceeds the hard bound
max_purges computed as the approximate queue size divided by the purge size
(the fetched insertion count times PURGE_SIZE_MULTIPLIER), and the bound
strictly decreases across iterations by construction of the loop. -/
theorem claim_C5 (p : Pool) :
    PurgeQueueIterations p ≤ p.queue.length / purgeSizeOf p := by
  unfold PurgeQueueIterations
  cases hA : PurgeQueueAux p with
  | error e => exact Nat.zero_le _
  | ok r => exact PurgeQueueAux_ok_count hA

/-- A Bool that is not false is true. -/
theorem bool_ne_false {b : Bool} (h : ¬b = false) : b = true := by
  cases b
  · exact absurd rfl h
  · rfl

/-- A SetLimit call that returns normally has adopted the new limit and
brought current memory at or below it. -/
theorem SetLimit_ok_facts {p p' : Pool} {x : Nat} {s : String}
    (hok : SetLimit p x s = .ok p') :
    p'.maximum_memory = x ∧ p'.current_memory ≤ x := by
  unfold SetLimit at hok
  split at hok
  · exact Except.noConfusion hok
  · split at hok
    · exact Except.noConfusion hok
    · next h2 =>
      cases hok
      constructor
      · rw [EvictBlocks_max]
        rfl
      · exact EvictBlocks_success_le _ _ _ _ (bool_ne_false h2)

/-- A SetLimit call that throws carries the requested limit and postscript
in the exception and leaves maximum_memory at its value before the call. -/
theorem SetLimit_err_facts {p p' : Pool} {e : OOMError} {x : Nat} {s : String}
    (herr : SetLimit p x s = .error (e, p')) :
    e.limit = x ∧ e.postscript = s ∧ p'.maximum_memory = p.maximum_memory := by
  unfold SetLimit at herr
  split at herr
  · injection herr with h
    injection h with h1 h2
    subst h1
    subst h2
    exact ⟨rfl, rfl, EvictBlocks_max _ _ _ _ _⟩
  · split at herr
    · injection herr with h
      injection h with h1 h2
      subst h1
      subst h2
      exact ⟨rfl, rfl, EvictBlocks_max _ _ _ _ _⟩
    · exact Except.noConfusion herr

/-- C2. Every SetLimit call either returns normally, after which the maximum
is the requested limit and current memory is at or below it, or throws an
OutOfMemory exception carrying the requested limit and the caller postscript,
after which the maximum equals its value before the call: a first-pass
failure never touched it, a second-pass failure restored the saved value. -/
theorem claim_C2 (p : Pool) (x : Nat) (s : String) :
    match SetLimit p x s with
    | .ok p' => p'.maximum_memory = x ∧ p'.current_memory ≤ x
    | .error (e, p') =>
        e.limit = x ∧ e.postscript = s ∧ p'.maximum_memory = p.maximum_memory := by
  cases hSL : SetLimit p x s with
  | ok p' => exact SetLimit_ok_facts hSL
  | error ep =>
    obtain ⟨e, p'⟩ := ep
    exact SetLimit_err_facts hSL

/-- C3, amended. For EvictBlocks calls without the out_buffer fast path
(no buffer requested), success does imply that current_memory ends at or
below memory_limit plus the reservation; the fast path is excluded, as the
counterexample shows it can return success while above that bound. -/
theorem claim_C3_amended (tag extra limit : Nat) (p : Pool)
    (hs : (EvictBlocks tag extra limit false p).success = true) :
    (EvictBlocks tag extra limit false p).pool.current_memory ≤ limit + extra :=
  Nat.le_trans (EvictBlocks_success_le tag extra limit p hs)
    (Nat.le_add_right limit extra)

/-- C3, witness: a concrete successful call satisfying the amended bound. -/
theorem claim_C3_witness :
    (EvictBlocks 0 0 0 false (mkPool 100)).success = true ∧
    (EvictBlocks 0 0 0 false (mkPool 100)).pool.current_memory ≤ 0 + 0 :=
  ⟨by decide, claim_C3_amended 0 0 0 (mkPool 100) (by decide)⟩

/-- C4. On a handle with readers = 0, AddToEvictionQueue bumps the handle
timestamp (wrapping uint64 pre-increment) to the new value ts, enqueues
exactly one hint carrying ts, increments total_dead_nodes exactly when ts is
not 1, increments the insertion counter by one, and returns true exactly
when the incremented counter reaches the INSERT_INTERVAL threshold. -/
theorem claim_C4 (p : Pool) (id : Nat) (h : BlockHandle)
    (hh : p.heap id = some h) (_hr : h.readers = 0) :
    (AddToEvictionQueue p id).1.heap id =
      some { h with eviction_timestamp := wadd h.eviction_timestamp 1 } ∧
    (AddToEvictionQueue p id).1.queue =
      p.queue ++ [⟨id, wadd h.eviction_timestamp 1⟩] ∧
    (AddToEvictionQueue p id).1.total_dead_nodes =
      (if wadd h.eviction_timestamp 1 ≠ 1 then wadd p.total_dead_nodes 1
       else p.total_dead_nodes) ∧
    (AddToEvictionQueue p id).1.evict_queue_insertions =
      wadd p.evict_queue_insertions 1 ∧
    ((AddToEvictionQueue p id).2 = true ↔
      INSERT_INTERVAL ≤ wadd p.evict_queue_insertions 1) := by
  refine ⟨?_, ?_, ?_, ?_, ?_⟩ <;>
    simp [AddToEvictionQueue, hh, decide_eq_true_eq]

/-- C4, witness: the contract evaluated on a concrete pool and handle. -/
theorem claim_C4_witness :
    (c4_p.heap 0 = some c9_h ∧ c9_h.readers = 0) ∧
    ((AddToEvictionQueue c4_p 0).2 = true ↔
      INSERT_INTERVAL ≤ wadd c4_p.evict_queue_insertions 1) :=
  ⟨⟨rfl, rfl⟩, (claim_C4 c4_p 0 c9_h rfl rfl).2.2.2.2⟩

/-- C7, amended. PurgeQueue is not idempotent: every call, a second
consecutive one included, unconditionally subtracts a further
INSERT_INTERVAL from evict_queue_insertions. When the call sees a queue
small enough for the early-out, this counter change is its only effect, and
a call whose fetched insertion count is 0 instead reaches the division by
zero, as the counterexample shows for the second of two consecutive calls. -/
theorem claim_C7_amended (p : Pool) (hpa : p.purge_active = false)
    (hq : p.queue.length < wmul (purgeSizeOf p) EARLY_OUT_MULTIPLIER) :
    PurgeQueue p = .ok { p with
      evict_queue_insertions := wsub p.evict_queue_insertions INSERT_INTERVAL } := by
  have hrec : purgeFetched p = { p with
      evict_queue_insertions := wsub p.evict_queue_insertions INSERT_INTERVAL } := by
    unfold purgeFetched
    rw [← hpa]
  rw [hpa] at hrec
  unfold PurgeQueue PurgeQueueAux
  rw [hpa, if_neg Bool.false_ne_true, if_pos hq, hrec]
  rfl

/-- C7, witness: on a pool whose counter sits at INSERT_INTERVAL with an
empty queue, PurgeQueue early-outs changing only the insertion counter. -/
theorem claim_C7_witness :
    c7_p.purge_active = false ∧
    PurgeQueue c7_p = .ok { c7_p with
      evict_queue_insertions := wsub c7_p.evict_queue_insertions INSERT_INTERVAL } :=
  ⟨rfl, claim_C7_amended c7_p rfl (by decide)⟩

/-- C9, amended. The unsigned counter total_dead_nodes does wrap below zero:
when EvictBlocks observes the only queued hint, finds its handle destroyed
while total_dead_nodes is 0, and still needs memory, the decrement wraps the
counter to 2^64 - 1. In particular a hint enqueued with timestamp 1 (which
never incremented the counter) whose handle is destroyed produces exactly
this situation, contrary to the claim. -/
theorem claim_C9_amended (p : Pool) (nd : BufferEvictionNode) (tag limit : Nat)
    (hq : p.queue = [nd]) (hh : p.heap nd.hid = none) (hd : p.total_dead_nodes = 0)
    (hcw : p.current_memory < W) (hl : limit < p.current_memory) :
    (EvictBlocks tag 0 limit false p).pool.total_dead_nodes = W - 1 := by
  have hcur : wadd p.current_memory 0 = p.current_memory := by
    unfold wadd
    rw [Nat.add_zero]
    exact Nat.mod_eq_of_lt hcw
  have hnle : ¬wadd p.current_memory 0 ≤ limit := by
    rw [hcur]
    omega
  unfold EvictBlocks
  rw [hq]
  simp only [evictGo, IncreaseUsedMemory, TryGetBlockHandle, releaseReservation,
    hh, hd, hnle, ite_false]
  decide

/-- C9, witness: the wraparound trace built from the pool operations, ending
with the counter at 2^64 - 1. -/
theorem claim_C9_witness :
    c9_p4.queue = [⟨0, 1⟩] ∧
    (EvictBlocks 0 0 0 false c9_p4).pool.total_dead_nodes = W - 1 :=
  ⟨by decide, claim_C9_amended c9_p4 ⟨0, 1⟩ 0 0 (by decide) (by decide) (by decide)
    (by decide) (by decide)⟩

/-- Transfer of an alive handle across pointwise-equal timestamp views. -/
theorem heap_ts_transfer {q p : Pool}
    (hheap : ∀ id, optTs (q.heap id) = optTs (p.heap id)) {id : Nat}
    {h : BlockHandle} (hh : q.heap id = some h) :
    ∃ h0, p.heap id = some h0 ∧ h0.eviction_timestamp = h.eviction_timestamp := by
  have hx := hheap id
  rw [hh] at hx
  cases hp : p.heap id with
  | none =>
    rw [hp] at hx
    exact Option.noConfusion hx
  | some h0 =>
    rw [hp] at hx
    refine ⟨h0, rfl, ?_⟩
    have := Option.some.inj hx
    exact this.symm

/-- The invariant transfers backwards along queue refinement. -/
theorem inv_of_refines {q p : Pool} (hinv : Inv p) (href : Refines q p) : Inv q := by
  obtain ⟨hts, hlive, hhf, hpf⟩ := hinv
  obtain ⟨hmem, hcnt, hheap, hnext⟩ := href
  refine ⟨?_, ?_, ?_, ?_⟩
  · intro nd hnd h hh
    obtain ⟨h0, hp0, hts0⟩ := heap_ts_transfer hheap hh
    rw [← hts0]
    exact hts nd (hmem nd hnd) h0 hp0
  · intro id h hh
    obtain ⟨h0, hp0, hts0⟩ := heap_ts_transfer hheap hh
    have hle := hcnt fun nd : BufferEvictionNode =>
      decide (nd.hid = id) && decide (nd.timestamp = h.eviction_timestamp)
    refine Nat.le_trans hle ?_
    rw [← hts0]
    exact hlive id h0 hp0
  · intro nd hnd
    rw [hnext]
    exact hhf nd (hmem nd hnd)
  · intro id h hh
    obtain ⟨h0, hp0, _⟩ := heap_ts_transfer hheap hh
    rw [hnext]
    exact hpf id h0 hp0

/-- The limit-adoption step between the two eviction passes of SetLimit is a
queue refinement. -/
theorem setLimitP2_refines (p : Pool) (x : Nat) : Refines (setLimitP2 p x) p := by
  refine refines_trans ?_ (EvictBlocks_refines TAG_EXTENSION 0 x false p)
  unfold setLimitP2
  apply refines_same <;> rfl

/-- A SetLimit call that returns normally is a queue refinement. -/
theorem SetLimit_ok_refines {p p' : Pool} {x : Nat} {s : String}
    (h : SetLimit p x s = .ok p') : Refines p' p := by
  unfold SetLimit at h
  split at h
  · exact Except.noConfusion h
  · split at h
    · exact Except.noConfusion h
    · cases h
      exact refines_trans (EvictBlocks_refines _ _ _ _ _) (setLimitP2_refines p x)

/-- A SetLimit call that throws is a queue refinement. -/
theorem SetLimit_err_refines {p p' : Pool} {e : OOMError} {x : Nat} {s : String}
    (h : SetLimit p x s = .error (e, p')) : Refines p' p := by
  unfold SetLimit at h
  split at h
  · injection h with h1
    injection h1 with h2 h3
    subst h3
    exact EvictBlocks_refines _ _ _ _ _
  · split at h
    · injection h with h1
      injection h1 with h2 h3
      subst h3
      refine refines_trans ?_
        (refines_trans (EvictBlocks_refines TAG_EXTENSION 0 x false (setLimitP2 p x))
          (setLimitP2_refines p x))
      apply refines_same <;> rfl
    · exact Except.noConfusion h

/-- Registering a fresh handle preserves the invariant: the fresh id cannot
occur in any queued hint. -/
theorem inv_create (p : Pool) (h : BlockHandle) (hinv : Inv p) :
    Inv { p with
      heap := fun i => if i = p.next_id then some h else p.heap i
      next_id := p.next_id + 1 } := by
  obtain ⟨hts, hlive, hhf, hpf⟩ := hinv
  refine ⟨?_, ?_, ?_, ?_⟩
  · intro nd hnd h' hh'
    dsimp only [] at hnd hh' ⊢
    by_cases hid : nd.hid = p.next_id
    · exact absurd hid (Nat.ne_of_lt (hhf nd hnd))
    · rw [if_neg hid] at hh'
      exact hts nd hnd h' hh'
  · intro id' h' hh'
    dsimp only [] at hh' ⊢
    by_cases hid : id' = p.next_id
    · rw [hid, if_pos rfl] at hh'
      have hzero : liveCount p.queue id' h'.eviction_timestamp = 0 := by
        unfold liveCount
        rw [List.countP_eq_zero]
        intro a ha
        simp only [Bool.and_eq_true, decide_eq_true_eq, not_and]
        intro hhid _
        rw [hid] at hhid
        exact absurd hhid (Nat.ne_of_lt (hhf a ha))
      omega
    · rw [if_neg hid] at hh'
      exact hlive id' h' hh'
  · intro nd hnd
    dsimp only [] at hnd ⊢
    exact Nat.lt_succ_of_lt (hhf nd hnd)
  · intro id' h' hh'
    dsimp only [] at hh' ⊢
    by_cases hid : id' = p.next_id
    · rw [hid]
      exact Nat.lt_succ_self _
    · rw [if_neg hid] at hh'
      exact Nat.lt_succ_of_lt (hpf id' h' hh')

/-- Destroying a handle preserves the invariant. -/
theorem inv_destroy (p : Pool) (id : Nat) (hinv : Inv p) :
    Inv { p with heap := fun i => if i = id then none else p.heap i } := by
  obtain ⟨hts, hlive, hhf, hpf⟩ := hinv
  refine ⟨?_, ?_, ?_, ?_⟩
  · intro nd hnd h' hh'
    dsimp only [] at hnd hh' ⊢
    by_cases hid : nd.hid = id
    · rw [if_pos hid] at hh'
      exact Option.noConfusion hh'
    · rw [if_neg hid] at hh'
      exact hts nd hnd h' hh'
  · intro id' h' hh'
    dsimp only [] at hh' ⊢
    by_cases hid : id' = id
    · rw [if_pos hid] at hh'
      exact Option.noConfusion hh'
    · rw [if_neg hid] at hh'
      exact hlive id' h' hh'
  · intro nd hnd
    dsimp only [] at hnd ⊢
    exact hhf nd hnd
  · intro id' h' hh'
    dsimp only [] at hh' ⊢
    by_cases hid : id' = id
    · rw [if_pos hid] at hh'
      exact Option.noConfusion hh'
    · rw [if_neg hid] at hh'
      exact hpf id' h' hh'

/-- An external handle mutation that keeps the timestamp preserves the
invariant. -/
theorem inv_touch (p : Pool) (id : Nat) (h h' : BlockHandle)
    (hh : p.heap id = some h) (htseq : h'.eviction_timestamp = h.eviction_timestamp)
    (hinv : Inv p) :
    Inv { p with heap := fun i => if i = id then some h' else p.heap i } := by
  refine inv_of_refines hinv ⟨fun _ hx => hx, fun _ => Nat.le_refl _, ?_, rfl⟩
  intro i
  show optTs (if i = id then some h' else p.heap i) = optTs (p.heap i)
  by_cases hi : i = id
  · rw [if_pos hi, hi, hh]
    show some h'.eviction_timestamp = some h.eviction_timestamp
    rw [htseq]
  · rw [if_neg hi]

/-- AddToEvictionQueue on an alive handle whose timestamp increment does not
wrap preserves the invariant: the bump kills all older hints of the handle,
and the single new hint is the unique live one. -/
theorem inv_add (p : Pool) (id : Nat) (h : BlockHandle) (hh : p.heap id = some h)
    (hw : h.eviction_timestamp + 1 < W) (hinv : Inv p) :
    Inv (AddToEvictionQueue p id).1 := by
  obtain ⟨hts, hlive, hhf, hpf⟩ := hinv
  have hw1 : wadd h.eviction_timestamp 1 = h.eviction_timestamp + 1 := by
    unfold wadd
    exact Nat.mod_eq_of_lt hw
  simp only [AddToEvictionQueue, hh, hw1]
  refine ⟨?_, ?_, ?_, ?_⟩
  · intro nd hnd h' hh'
    dsimp only [] at hnd hh' ⊢
    rcases List.mem_append.mp hnd with hin | hin
    · by_cases hid : nd.hid = id
      · rw [if_pos hid] at hh'
        cases hh'
        exact Nat.le_succ_of_le (hts nd hin h (hid ▸ hh))
      · rw [if_neg hid] at hh'
        exact hts nd hin h' hh'
    · rw [List.mem_singleton] at hin
      subst hin
      rw [if_pos rfl] at hh'
      cases hh'
      exact Nat.le_refl _
  · intro id' h' hh'
    dsimp only [] at hh' ⊢
    by_cases hid : id' = id
    · subst hid
      rw [if_pos rfl] at hh'
      cases hh'
      show liveCount (p.queue ++ [⟨id', h.eviction_timestamp + 1⟩]) id'
        (h.eviction_timestamp + 1) ≤ 1
      unfold liveCount
      rw [List.countP_append]
      have hzero : p.queue.countP (fun nd =>
          decide (nd.hid = id') && decide (nd.timestamp = h.eviction_timestamp + 1)) = 0 := by
        rw [List.countP_eq_zero]
        intro a ha
        simp only [Bool.and_eq_true, decide_eq_true_eq, not_and]
        intro hhid hats
        have := hts a ha h (hhid ▸ hh)
        omega
      rw [hzero]
      simp
    · rw [if_neg hid] at hh'
      show liveCount (p.queue ++ [⟨id, h.eviction_timestamp + 1⟩]) id'
        h'.eviction_timestamp ≤ 1
      unfold liveCount
      rw [List.countP_append]
      have hone : List.countP (fun nd : BufferEvictionNode =>
          decide (nd.hid = id') && decide (nd.timestamp = h'.eviction_timestamp))
          ([⟨id, h.eviction_timestamp + 1⟩] : List BufferEvictionNode) = 0 := by
        rw [List.countP_eq_zero]
        intro a ha
        rw [List.mem_singleton] at ha
        subst ha
        simp only [Bool.and_eq_true, decide_eq_true_eq, not_and]
        intro hhid _
        exact hid (hhid ▸ rfl)
      rw [hone, Nat.add_zero]
      exact hlive id' h' hh'
  · intro nd hnd
    dsimp only [] at hnd ⊢
    rcases List.mem_append.mp hnd with hin | hin
    · exact hhf nd hin
    · rw [List.mem_singleton] at hin
      subst hin
      exact hpf id h hh
  · intro id' h' hh'
    dsimp only [] at hh' ⊢
    by_cases hid : id' = id
    · subst hid
      exact hpf id' h hh
    · rw [if_neg hid] at hh'
      exact hpf id' h' hh'

/-- AddToEvictionQueue on a vanished handle is the identity and preserves
the invariant. -/
theorem inv_addGone (p : Pool) (id : Nat) (hh : p.heap id = none) (hinv : Inv p) :
    Inv (AddToEvictionQueue p id).1 := by
  simp only [AddToEvictionQueue, hh]
  exact hinv

/-- Every environment or pool step without timestamp wraparound preserves
the invariant. -/
theorem inv_stepNW {p p' : Pool} (hinv : Inv p) (hs : StepNW p p') : Inv p' := by
  cases hs with
  | create h => exact inv_create _ h hinv
  | destroy id => exact inv_destroy _ id hinv
  | touch id h h' hh htseq => exact inv_touch _ id h h' hh htseq hinv
  | increase tag size =>
    exact inv_of_refines hinv (refines_same rfl rfl rfl)
  | add id h hh hw => exact inv_add _ id h hh hw hinv
  | addGone id hh => exact inv_addGone _ id hh hinv
  | evict tag extra limit wb =>
    exact inv_of_refines hinv (EvictBlocks_refines tag extra limit wb _)
  | purgeOk a h => exact inv_of_refines hinv (PurgeQueue_ok_refines h)
  | setLimitOk x s a h => exact inv_of_refines hinv (SetLimit_ok_refines h)
  | setLimitErr x s e a h => exact inv_of_refines hinv (SetLimit_err_refines h)

/-- A freshly constructed pool satisfies the invariant. -/
theorem inv_init (m : Nat) : Inv (mkPool m) := by
  refine ⟨?_, ?_, ?_, ?_⟩
  · intro nd hnd h hh
    exact absurd hnd (List.not_mem_nil nd)
  · intro id h hh
    exact Option.noConfusion hh
  · intro nd hnd
    exact absurd hnd (List.not_mem_nil nd)
  · intro id h hh
    exact Option.noConfusion hh

/-- Every state reachable without timestamp wraparound satisfies the
invariant. -/
theorem reach_inv {p : Pool} (h : ReachableNW p) : Inv p := by
  induction h with
  | init m => exact inv_init m
  | step p p' hr hs ih => exact inv_stepNW ih hs

/-- C6, amended. In every pool state reachable without timestamp wraparound
(no handle is unpinned 2^64 times), every alive handle has at most one hint
in the queue whose timestamp equals the current eviction_timestamp of the
handle; the reachability relation includes AddToEvictionQueue (which bumps
the timestamp before enqueueing the one new hint), EvictBlocks, PurgeQueue
passes, SetLimit, and the external handle lifecycle. Under the exact
mod-2^64 semantics the unrestricted claim fails, as the counterexample
shows: after 2^64 + 1 insertions for one handle the first hint is live
again. -/
theorem claim_C6_amended (p : Pool) (hreach : ReachableNW p) : atMostOneLive p :=
  (reach_inv hreach).2.1

/-- C6, witness: the invariant holds at a concrete reachable state. -/
theorem claim_C6_witness : atMostOneLive (mkPool 0) :=
  claim_C6_amended (mkPool 0) (ReachableNW.init 0)

/-- Counting over a mapped list counts the composed predicate. -/
theorem countP_map_fn {α β : Type} (f : α → β) (p : β → Bool) (l : List α) :
    (l.map f).countP p = l.countP fun a => p (f a) := by
  induction l with
  | nil => rfl
  | cons a l ih =>
    rw [List.map_cons, List.countP_cons, List.countP_cons, ih]

/-- Counting respects pointwise equality of predicates on the members. -/
theorem countP_congr_fn {α : Type} (p q : α → Bool) (l : List α)
    (h : ∀ a ∈ l, p a = q a) : l.countP p = l.countP q := by
  induction l with
  | nil => rfl
  | cons a l ih =>
    rw [List.countP_cons, List.countP_cons,
      ih fun b hb => h b (List.mem_cons_of_mem a hb), h a (List.mem_cons_self a l)]

/-- In the range below w exactly one index is zero. -/
theorem countP_range_eqzero :
    ∀ w : Nat, 0 < w → (List.range w).countP (fun i => decide (i = 0)) = 1
  | 0, hw => absurd hw (Nat.lt_irrefl 0)
  | n + 1, _ => by
    rw [List.range_succ_eq_map, List.countP_cons]
    have hz : (List.map Nat.succ (List.range n)).countP
        (fun i => decide (i = 0)) = 0 := by
      rw [List.countP_eq_zero]
      intro a ha
      rw [List.mem_map] at ha
      obtain ⟨b, _, rfl⟩ := ha
      simp
    rw [hz]
    simp

/-- Incrementing the wrapped timestamp commutes with the wrap of the step
count. -/
theorem wadd_mod_one (n : Nat) : wadd (n % W) 1 = (n + 1) % W := by
  unfold wadd
  exact Nat.mod_add_mod n W 1

/-- Iterated unpinning is reachable under the unrestricted step relation. -/
theorem addSteps_reachable (n : Nat) (p : Pool) (hp : Reachable p) :
    Reachable (addSteps n p) := by
  induction n with
  | zero => exact hp
  | succ n ih => exact Reachable.step _ _ ih (Step.add _ 0)

/-- Closed form of the wraparound trace: after n unpins of the single handle
the timestamp is n mod 2^64 and the queue holds one hint per unpin, carrying
the wrapped bump values in order. -/
theorem addSteps_spec (n : Nat) :
    (addSteps n c6w_p0).heap 0 =
      some { c6w_h with eviction_timestamp := n % W } ∧
    (addSteps n c6w_p0).queue =
      (List.range n).map fun i => (⟨0, (i + 1) % W⟩ : BufferEvictionNode) := by
  induction n with
  | zero => exact ⟨by decide, by decide⟩
  | succ n ih =>
    obtain ⟨ihh, ihq⟩ := ih
    constructor
    · show (AddToEvictionQueue (addSteps n c6w_p0) 0).1.heap 0 = _
      simp [AddToEvictionQueue, ihh, wadd_mod_one]
    · show (AddToEvictionQueue (addSteps n c6w_p0) 0).1.queue = _
      simp only [AddToEvictionQueue, ihh]
      rw [List.range_succ, List.map_append, ihq, wadd_mod_one]
      simp

/-- After a full wrap cycle plus one step, the queue holds exactly two hints
carrying timestamp 1 for the handle: the first one and the last one. -/
theorem c6w_liveCount :
    liveCount ((List.range (W + 1)).map fun i => (⟨0, (i + 1) % W⟩ : BufferEvictionNode))
      0 1 = 2 := by
  unfold liveCount
  rw [countP_map_fn]
  rw [countP_congr_fn _ (fun i => decide ((i + 1) % W = 1)) _ (by intro a _; simp)]
  rw [List.range_succ, List.countP_append]
  have hW1 : (W + 1) % W = 1 := by
    rw [Nat.add_mod_left]
    decide
  have hhead : (List.range W).countP (fun i => decide ((i + 1) % W = 1)) = 1 := by
    rw [countP_congr_fn _ (fun i => decide (i = 0)) _ ?hc]
    · exact countP_range_eqzero W (by decide)
    case hc =>
      intro a ha
      rw [List.mem_range] at ha
      by_cases h0 : a = 0
      · subst h0
        have : (0 + 1) % W = 1 := Nat.mod_eq_of_lt (by decide)
        simp [this]
      · have hne : (a + 1) % W ≠ 1 := by
          rcases Nat.lt_or_ge (a + 1) W with hlt | hge
          · rw [Nat.mod_eq_of_lt hlt]
            omega
          · have ha1 : a + 1 = W := by omega
            rw [ha1, Nat.mod_self]
            decide
        simp [h0, hne]
  rw [hhead]
  simp [List.countP_cons, hW1]

/-- C6, counterexample: with the faithful wrapping uint64 timestamp, the
state reached by registering one handle and unpinning it 2^64 + 1 times is
reachable, yet the handle then has two live hints in the queue (the first
hint, with timestamp 1, and the last), falsifying the at-most-one-live
invariant as originally claimed for every reachable state. -/
theorem claim_C6_counterexample :
    Reachable (addSteps (W + 1) c6w_p0) ∧ ¬atMostOneLive (addSteps (W + 1) c6w_p0) := by
  constructor
  · exact addSteps_reachable (W + 1) c6w_p0
      (Reachable.step _ _ (Reachable.init 0) (Step.create (mkPool 0) c6w_h))
  · intro hmono
    obtain ⟨ihh, ihq⟩ := addSteps_spec (W + 1)
    have h1 := hmono 0 { c6w_h with eviction_timestamp := (W + 1) % W } ihh
    rw [ihq] at h1
    have hW1 : (W + 1) % W = 1 := by
      rw [Nat.add_mod_left]
      decide
    have h2 : liveCount ((List.range (W + 1)).map fun i =>
        (⟨0, (i + 1) % W⟩ : BufferEvictionNode)) 0 ((W + 1) % W) ≤ 1 := h1
    rw [hW1, c6w_liveCount] at h2
    exact absurd h2 (by decide)

end DuckDB
